import Mathlib

/-!
# Verification of the k8s_sandbox core against its specification

Shallow embedding of the parts of `k8s_sandbox` (Helm release manager,
pod exec output handling, helm driver) that the specification's claims
are about, together with proofs settling each claim.

Bytes are modelled as natural numbers; byte strings as `List Nat`;
decoded text as lists of code points (`List Nat`) or `List Char` where
convenient.
-/

namespace K8sSandbox

/-! ## `LimitedBuffer` (`k8s_sandbox/_pod/buffer.py`)

Python source:

```
class LimitedBuffer:
    def __init__(self, limit: int) -> None:
        self._buffer = bytearray()
        self._limit = limit
        self.truncated = False

    def append(self, data: bytes) -> None:
        if self.truncated:
            return
        remaining_space = self._limit - len(self._buffer)
        if len(data) > remaining_space:
            self.truncated = True
        self._buffer.extend(data[:remaining_space])
```
-/

structure LimitedBuffer where
  buffer : List Nat
  limit : Nat
  truncated : Bool
  deriving Repr, DecidableEq

/-- Model of `LimitedBuffer.__init__(limit)`. -/
def LimitedBuffer.init (limit : Nat) : LimitedBuffer :=
  { buffer := [], limit := limit, truncated := false }

/-- Model of `LimitedBuffer.append(data)`.  `data[:remaining_space]` is `List.take`
(in the reachable states `len(buffer) <= limit`, so `remaining_space >= 0`
and Python's slice agrees with `take` on the natural-number difference). -/
def LimitedBuffer.append (b : LimitedBuffer) (data : List Nat) : LimitedBuffer :=
  if b.truncated then b
  else
    let remaining : Nat := b.limit - b.buffer.length
    { buffer := b.buffer ++ data.take remaining
      limit := b.limit
      truncated := if data.length > remaining then true else b.truncated }

/-- A sequence of `append` calls, as performed by the exec read loop. -/
def LimitedBuffer.appendAll (b : LimitedBuffer) (chunks : List (List Nat)) :
    LimitedBuffer :=
  chunks.foldl LimitedBuffer.append b

/-- General invariant of the append loop: if the buffer currently holds the
first `limit` bytes of the stream `c` consumed so far (with the truncated
flag recording whether `c` overflowed), then this stays true after absorbing
any further chunks. -/
theorem appendAll_invariant (chunks : List (List Nat)) :
    ∀ (L : Nat) (c : List Nat),
      (LimitedBuffer.appendAll
          { buffer := c.take L, limit := L, truncated := decide (c.length > L) }
          chunks) =
        { buffer := (c ++ chunks.flatten).take L, limit := L,
          truncated := decide ((c ++ chunks.flatten).length > L) } := by
  induction chunks with
  | nil => intro L c; simp [LimitedBuffer.appendAll]
  | cons d rest ih =>
    intro L c
    have hstep :
        LimitedBuffer.append
            { buffer := c.take L, limit := L, truncated := decide (c.length > L) } d =
          { buffer := (c ++ d).take L, limit := L,
            truncated := decide ((c ++ d).length > L) } := by
      by_cases htr : c.length > L
      · -- already truncated: nothing changes
        have h1 : (c ++ d).take L = c.take L := by
          rw [List.take_append_eq_append_take]
          have h0 : L - c.length = 0 := Nat.sub_eq_zero_of_le (Nat.le_of_lt htr)
          simp [h0]
        have h2 : decide (c.length > L) = decide ((c ++ d).length > L) := by
          apply decide_eq_decide.mpr
          simp only [List.length_append]
          omega
        simp only [LimitedBuffer.append]
        rw [if_pos (by simp [htr])]
        rw [h1, h2]
      · -- not yet truncated: buffer is exactly c, remaining = L - |c|
        push_neg at htr
        have hcL : c.length ≤ L := htr
        have htake : c.take L = c := List.take_of_length_le hcL
        have h1 : (c ++ d).take L = c ++ d.take (L - c.length) := by
          rw [List.take_append_eq_append_take, htake]
        simp only [LimitedBuffer.append]
        rw [if_neg (by simp; omega)]
        simp only [htake, h1]
        have h2 : (if d.length > L - c.length then true else decide (c.length > L)) =
            decide ((c ++ d).length > L) := by
          by_cases hd : d.length > L - c.length
          · rw [if_pos hd]
            symm
            rw [decide_eq_true_eq]
            simp only [List.length_append]
            omega
          · rw [if_neg hd]
            apply decide_eq_decide.mpr
            simp only [List.length_append]
            omega
        rw [h2]
    simp only [LimitedBuffer.appendAll, List.foldl_cons] at *
    rw [hstep, ih L (c ++ d)]
    simp

/-- C3: For every capacity limit `L ≥ 0` and every finite sequence of byte
strings appended to a fresh `LimitedBuffer(L)` whose concatenation has total
length `N`, the buffer's contents afterwards equal the first `min L N` bytes
of that concatenation, and the truncated flag is set iff `N > L`. -/
theorem limitedBuffer_append_spec (L : Nat) (chunks : List (List Nat)) :
    ((LimitedBuffer.init L).appendAll chunks).buffer =
        chunks.flatten.take (min L chunks.flatten.length) ∧
      (((LimitedBuffer.init L).appendAll chunks).truncated = true ↔
        chunks.flatten.length > L) := by
  have h := appendAll_invariant chunks L ([] : List Nat)
  have hinit : LimitedBuffer.init L =
      { buffer := List.take L ([] : List Nat), limit := L,
        truncated := decide (([] : List Nat).length > L) } := by
    simp [LimitedBuffer.init]
  rw [hinit, h]
  constructor
  · simp only [List.nil_append]
    rw [List.take_eq_take]
    omega
  · simp

/-! ## UTF-8 strict decoding (`bytes.decode("utf-8", errors="strict")`)

`LimitedBuffer.__str__` calls CPython's strict UTF-8 decoder and inspects the
`UnicodeDecodeError`'s `start`/`end` positions.  The decoder below models
CPython's semantics: on the first ill-formed sequence it reports the range
covering the *maximal subpart* of that sequence (the lead byte together with
the continuation bytes that are still admissible for it), per PEP 383 /
the W3C recommendation that CPython implements.  Success yields the list of
decoded code points. -/

/-- Is `b` a UTF-8 continuation byte (`0x80..0xBF`)? -/
def isCont (b : Nat) : Bool := 128 ≤ b && b ≤ 191

/-- Admissible range for the first continuation byte after lead `lead`;
CPython rejects overlong encodings and surrogates at this byte. -/
def cont1OK (lead b1 : Nat) : Bool :=
  if lead = 224 then 160 ≤ b1 && b1 ≤ 191
  else if lead = 237 then 128 ≤ b1 && b1 ≤ 159
  else if lead = 240 then 144 ≤ b1 && b1 ≤ 191
  else if lead = 244 then 128 ≤ b1 && b1 ≤ 143
  else isCont b1

/-- Strict UTF-8 decoding of the bytes `l`, which start at absolute
position `i` of the original buffer.  Returns the decoded code points, or
`(start, end)` of the first decode error (as CPython reports them). -/
def utf8DecodeAux : List Nat → Nat → Except (Nat × Nat) (List Nat)
  | [], _ => .ok []
  | b :: rest, i =>
    if b < 128 then
      (utf8DecodeAux rest (i + 1)).map (fun cps => b :: cps)
    else if b < 194 then .error (i, i + 1)
    else if b ≤ 223 then
      match rest with
      | [] => .error (i, i + 1)
      | b1 :: rest1 =>
        if isCont b1 then
          (utf8DecodeAux rest1 (i + 2)).map
            (fun cps => ((b - 192) * 64 + (b1 - 128)) :: cps)
        else .error (i, i + 1)
    else if b ≤ 239 then
      match rest with
      | [] => .error (i, i + 1)
      | b1 :: rest1 =>
        if cont1OK b b1 then
          match rest1 with
          | [] => .error (i, i + 2)
          | b2 :: rest2 =>
            if isCont b2 then
              (utf8DecodeAux rest2 (i + 3)).map
                (fun cps => ((b - 224) * 4096 + (b1 - 128) * 64 + (b2 - 128)) :: cps)
            else .error (i, i + 2)
        else .error (i, i + 1)
    else if b ≤ 244 then
      match rest with
      | [] => .error (i, i + 1)
      | b1 :: rest1 =>
        if cont1OK b b1 then
          match rest1 with
          | [] => .error (i, i + 2)
          | b2 :: rest2 =>
            if isCont b2 then
              match rest2 with
              | [] => .error (i, i + 3)
              | b3 :: rest3 =>
                if isCont b3 then
                  (utf8DecodeAux rest3 (i + 4)).map
                    (fun cps => ((b - 240) * 262144 + (b1 - 128) * 4096 +
                          (b2 - 128) * 64 + (b3 - 128)) :: cps)
                else .error (i, i + 3)
            else .error (i, i + 2)
        else .error (i, i + 1)
    else .error (i, i + 1)

/-- Model of `bytes.decode("utf-8", errors="strict")`. -/
def utf8Decode (l : List Nat) : Except (Nat × Nat) (List Nat) :=
  utf8DecodeAux l 0

/-- On an all-ASCII byte list, strict decoding succeeds and is the identity. -/
theorem utf8DecodeAux_ascii :
    ∀ (l : List Nat) (i : Nat), (∀ b ∈ l, b < 128) → utf8DecodeAux l i = .ok l := by
  intro l
  induction l with
  | nil => intro i _; simp [utf8DecodeAux]
  | cons b rest ih =>
    intro i h
    have hb : b < 128 := h b (by simp)
    have hrest : ∀ x ∈ rest, x < 128 := fun x hx => h x (by simp [hx])
    rw [utf8DecodeAux.eq_def]
    simp [hb, ih (i + 1) hrest, Except.map]

/-- Mapping a function over an `Except` does not affect the error case. -/
theorem except_map_error {α β ε : Type} (f : α → β) (r : Except ε α) (y : ε)
    (h : r.map f = .error y) : r = .error y := by
  cases r with
  | ok a => simp [Except.map] at h
  | error e => simpa [Except.map] using h

/-- Closer for the branches of `utf8DecodeAux` that fail at the current
position: the empty prefix decodes trivially. -/
theorem decode_take_self (l : List Nat) (i : Nat) :
    i ≤ i ∧ ∃ cps, utf8DecodeAux (l.take (i - i)) i = .ok cps :=
  ⟨le_rfl, ⟨[], by simp [utf8DecodeAux]⟩⟩

/-- If strict decoding fails with error range `(s, e)`, the prefix of the
input before absolute position `s` decodes successfully: `s` is the first
error position, as `UnicodeDecodeError.start` is in CPython. -/
theorem utf8DecodeAux_error_take :
    ∀ (l : List Nat) (i s e : Nat), utf8DecodeAux l i = .error (s, e) →
      i ≤ s ∧ ∃ cps, utf8DecodeAux (l.take (s - i)) i = .ok cps := by
  intro l i
  induction l, i using utf8DecodeAux.induct with
  | case1 i =>
    intro s e h
    simp [utf8DecodeAux] at h
  | case2 b rest i hb ih =>
    intro s e h
    rw [utf8DecodeAux.eq_def] at h
    simp only [if_pos hb] at h
    obtain ⟨hle, w, hw⟩ := ih s e (except_map_error _ _ _ h)
    refine ⟨by omega, ⟨b :: w, ?_⟩⟩
    have hsk : s - i = (s - (i + 1)) + 1 := by omega
    rw [hsk, List.take_succ_cons, utf8DecodeAux.eq_def]
    simp [hb, hw, Except.map]
  | case3 b rest i h1 h2 =>
    intro s e h
    rw [utf8DecodeAux.eq_def] at h
    simp [h1, h2] at h
    obtain ⟨rfl, rfl⟩ := h
    exact decode_take_self _ _
  | case4 b i h1 h2 h3 =>
    intro s e h
    rw [utf8DecodeAux.eq_def] at h
    simp [h1, h2, h3] at h
    obtain ⟨rfl, rfl⟩ := h
    exact decode_take_self _ _
  | case5 b i h1 h2 h3 b1 rest1 hc ih =>
    intro s e h
    rw [utf8DecodeAux.eq_def] at h
    simp only [if_neg h1, if_neg h2, if_pos h3, if_pos hc] at h
    obtain ⟨hle, w, hw⟩ := ih s e (except_map_error _ _ _ h)
    refine ⟨by omega, ⟨((b - 192) * 64 + (b1 - 128)) :: w, ?_⟩⟩
    have hsk : s - i = (s - (i + 2)) + 1 + 1 := by omega
    rw [hsk, List.take_succ_cons, List.take_succ_cons, utf8DecodeAux.eq_def]
    simp [h1, h2, h3, hc, hw, Except.map]
  | case6 b i h1 h2 h3 b1 rest1 hc =>
    intro s e h
    rw [utf8DecodeAux.eq_def] at h
    simp [h1, h2, h3, hc] at h
    obtain ⟨rfl, rfl⟩ := h
    exact decode_take_self _ _
  | case7 b i h1 h2 h3 h4 =>
    intro s e h
    rw [utf8DecodeAux.eq_def] at h
    simp [h1, h2, h3, h4] at h
    obtain ⟨rfl, rfl⟩ := h
    exact decode_take_self _ _
  | case8 b i h1 h2 h3 h4 b1 hc1 =>
    intro s e h
    rw [utf8DecodeAux.eq_def] at h
    simp [h1, h2, h3, h4, hc1] at h
    obtain ⟨rfl, rfl⟩ := h
    exact decode_take_self _ _
  | case9 b i h1 h2 h3 h4 b1 hc1 b2 rest2 hc2 ih =>
    intro s e h
    rw [utf8DecodeAux.eq_def] at h
    simp only [if_neg h1, if_neg h2, if_neg h3, if_pos h4, if_pos hc1,
      if_pos hc2] at h
    obtain ⟨hle, w, hw⟩ := ih s e (except_map_error _ _ _ h)
    refine ⟨by omega,
      ⟨((b - 224) * 4096 + (b1 - 128) * 64 + (b2 - 128)) :: w, ?_⟩⟩
    have hsk : s - i = (s - (i + 3)) + 1 + 1 + 1 := by omega
    rw [hsk, List.take_succ_cons, List.take_succ_cons, List.take_succ_cons,
      utf8DecodeAux.eq_def]
    simp [h1, h2, h3, h4, hc1, hc2, hw, Except.map]
  | case10 b i h1 h2 h3 h4 b1 hc1 b2 rest2 hc2 =>
    intro s e h
    rw [utf8DecodeAux.eq_def] at h
    simp [h1, h2, h3, h4, hc1, hc2] at h
    obtain ⟨rfl, rfl⟩ := h
    exact decode_take_self _ _
  | case11 b i h1 h2 h3 h4 b1 rest1 hc1 =>
    intro s e h
    rw [utf8DecodeAux.eq_def] at h
    simp [h1, h2, h3, h4, hc1] at h
    obtain ⟨rfl, rfl⟩ := h
    exact decode_take_self _ _
  | case12 b i h1 h2 h3 h4 h5 =>
    intro s e h
    rw [utf8DecodeAux.eq_def] at h
    simp [h1, h2, h3, h4, h5] at h
    obtain ⟨rfl, rfl⟩ := h
    exact decode_take_self _ _
  | case13 b i h1 h2 h3 h4 h5 b1 hc1 =>
    intro s e h
    rw [utf8DecodeAux.eq_def] at h
    simp [h1, h2, h3, h4, h5, hc1] at h
    obtain ⟨rfl, rfl⟩ := h
    exact decode_take_self _ _
  | case14 b i h1 h2 h3 h4 h5 b1 hc1 b2 hc2 =>
    intro s e h
    rw [utf8DecodeAux.eq_def] at h
    simp [h1, h2, h3, h4, h5, hc1, hc2] at h
    obtain ⟨rfl, rfl⟩ := h
    exact decode_take_self _ _
  | case15 b i h1 h2 h3 h4 h5 b1 hc1 b2 hc2 b3 rest3 hc3 ih =>
    intro s e h
    rw [utf8DecodeAux.eq_def] at h
    simp only [if_neg h1, if_neg h2, if_neg h3, if_neg h4, if_pos h5,
      if_pos hc1, if_pos hc2, if_pos hc3] at h
    obtain ⟨hle, w, hw⟩ := ih s e (except_map_error _ _ _ h)
    refine ⟨by omega,
      ⟨((b - 240) * 262144 + (b1 - 128) * 4096 + (b2 - 128) * 64 +
        (b3 - 128)) :: w, ?_⟩⟩
    have hsk : s - i = (s - (i + 4)) + 1 + 1 + 1 + 1 := by omega
    rw [hsk, List.take_succ_cons, List.take_succ_cons, List.take_succ_cons,
      List.take_succ_cons, utf8DecodeAux.eq_def]
    simp [h1, h2, h3, h4, h5, hc1, hc2, hc3, hw, Except.map]
  | case16 b i h1 h2 h3 h4 h5 b1 hc1 b2 hc2 b3 rest3 hc3 =>
    intro s e h
    rw [utf8DecodeAux.eq_def] at h
    simp [h1, h2, h3, h4, h5, hc1, hc2, hc3] at h
    obtain ⟨rfl, rfl⟩ := h
    exact decode_take_self _ _
  | case17 b i h1 h2 h3 h4 h5 b1 hc1 b2 rest2 hc2 =>
    intro s e h
    rw [utf8DecodeAux.eq_def] at h
    simp [h1, h2, h3, h4, h5, hc1, hc2] at h
    obtain ⟨rfl, rfl⟩ := h
    exact decode_take_self _ _
  | case18 b i h1 h2 h3 h4 h5 b1 rest1 hc1 =>
    intro s e h
    rw [utf8DecodeAux.eq_def] at h
    simp [h1, h2, h3, h4, h5, hc1] at h
    obtain ⟨rfl, rfl⟩ := h
    exact decode_take_self _ _
  | case19 b rest i h1 h2 h3 h4 h5 =>
    intro s e h
    rw [utf8DecodeAux.eq_def] at h
    simp [h1, h2, h3, h4, h5] at h
    obtain ⟨rfl, rfl⟩ := h
    exact decode_take_self _ _

/-! ## `LimitedBuffer.__str__`

Python source:

```
def __str__(self) -> str:
    try:
        return self._buffer.decode("utf-8", errors="strict")
    except UnicodeDecodeError as e:
        if self.truncated and e.end == len(self._buffer):
            return self._buffer[: e.start].decode("utf-8", errors="strict")
        raise
```

`.error ()` models a raised `UnicodeDecodeError`. -/

def LimitedBuffer.toStr (b : LimitedBuffer) : Except Unit (List Nat) :=
  match utf8Decode b.buffer with
  | .ok cps => .ok cps
  | .error (s, e) =>
    if b.truncated && (e == b.buffer.length) then
      match utf8Decode (b.buffer.take s) with
      | .ok cps => .ok cps
      | .error _ => .error ()
    else .error ()

/-- If the whole buffer decodes, `__str__` returns the decoded text. -/
theorem toStr_of_decode_ok (b : LimitedBuffer) (cps : List Nat)
    (h : utf8Decode b.buffer = .ok cps) : b.toStr = .ok cps := by
  simp [LimitedBuffer.toStr, h]

/-- If decoding fails with a range ending exactly at the end of a truncated
buffer, `__str__` returns the decoded text of the prefix before the error. -/
theorem toStr_of_error_at_end (b : LimitedBuffer) (s e : Nat)
    (herr : utf8Decode b.buffer = .error (s, e)) (htr : b.truncated = true)
    (hend : e = b.buffer.length) :
    ∃ cps, utf8Decode (b.buffer.take s) = .ok cps ∧ b.toStr = .ok cps := by
  obtain ⟨-, w, hw⟩ := utf8DecodeAux_error_take b.buffer 0 s e herr
  rw [Nat.sub_zero] at hw
  refine ⟨w, hw, ?_⟩
  have herr2 : utf8DecodeAux b.buffer 0 = .error (s, e) := herr
  have hw2 : utf8Decode (b.buffer.take s) = .ok w := hw
  simp [LimitedBuffer.toStr, utf8Decode, herr2, htr, hend, hw2, hw]

/-- If decoding fails and the tolerated case does not apply, `__str__`
re-raises the decode error. -/
theorem toStr_of_error_not_end (b : LimitedBuffer) (s e : Nat)
    (herr : utf8Decode b.buffer = .error (s, e))
    (hne : ¬(b.truncated = true ∧ e = b.buffer.length)) :
    b.toStr = .error () := by
  have hcond : (b.truncated && (e == b.buffer.length)) = false := by
    cases htr : b.truncated with
    | false => simp
    | true =>
      have hnee : ¬ e = b.buffer.length := fun hc => hne ⟨htr, hc⟩
      simp [hnee]
  simp [LimitedBuffer.toStr, herr, hcond]

/-- Does the byte list `t` form an *incomplete* multi-byte UTF-8 character,
i.e. a proper prefix (lead byte plus admissible continuation bytes) of a
valid multi-byte encoding?  Written from the specification's words for
claim C8. -/
def isIncompleteMultibyteChar (t : List Nat) : Bool :=
  match t with
  | [lead] => 194 ≤ lead && lead ≤ 244
  | [lead, b1] => (224 ≤ lead && lead ≤ 244) && cont1OK lead b1
  | [lead, b1, b2] => (240 ≤ lead && lead ≤ 244) && cont1OK lead b1 && isCont b2
  | _ => false

/-- Claim-side reading of C8: the first invalid sequence of `buf` is an
incomplete multi-byte character extending to exactly the end of `buf`. -/
def firstErrorIncompleteAtEnd (buf : List Nat) : Bool :=
  match utf8Decode buf with
  | .ok _ => false
  | .error (s, e) => (e == buf.length) && isIncompleteMultibyteChar (buf.drop s)

/-- C8, counterexample.  The reachable state `LimitedBuffer(2)` after
`append(b"a\xffb")` holds `b"a\xff"` with `truncated` set.  Its contents are
not valid UTF-8 and the first invalid sequence (`0xff`, a lone invalid start
byte) is *not* an incomplete multi-byte character, yet `__str__` returns
`"a"` instead of raising: the code tolerates *any* decode error whose
reported range ends at the end of a truncated buffer, not only incomplete
multi-byte characters. -/
theorem limitedBuffer_str_claim_counterexample :
    (LimitedBuffer.init 2).appendAll [[97, 255, 98]] =
        { buffer := [97, 255], limit := 2, truncated := true } ∧
      utf8Decode [97, 255] = .error (1, 2) ∧
      firstErrorIncompleteAtEnd [97, 255] = false ∧
      ({ buffer := [97, 255], limit := 2, truncated := true }
          : LimitedBuffer).toStr = .ok [97] := by
  refine ⟨?_, rfl, rfl, rfl⟩
  rfl

/-- C8, amended: converting the buffer to text raises a decoding error
exactly when the contents are not valid UTF-8, except when the truncated
flag is set and the first decode error's reported range extends to exactly
the end of the buffer (an incomplete multi-byte character at the end, or a
lone invalid byte in final position), in which case the decoded text of the
valid prefix before that error is returned instead. -/
theorem limitedBuffer_str_spec (b : LimitedBuffer) :
    (∀ cps, utf8Decode b.buffer = .ok cps → b.toStr = .ok cps) ∧
      (∀ s e, utf8Decode b.buffer = .error (s, e) →
        ((b.truncated = true ∧ e = b.buffer.length) →
          ∃ cps, utf8Decode (b.buffer.take s) = .ok cps ∧ b.toStr = .ok cps) ∧
        (¬(b.truncated = true ∧ e = b.buffer.length) → b.toStr = .error ())) := by
  refine ⟨fun cps h => toStr_of_decode_ok b cps h, fun s e herr => ⟨?_, ?_⟩⟩
  · rintro ⟨htr, hend⟩
    exact toStr_of_error_at_end b s e herr htr hend
  · intro hne
    exact toStr_of_error_not_end b s e herr hne

/-- Witness for `limitedBuffer_str_spec`, applying it to three concrete
buffer states: fully valid contents, a truncated buffer ending in an
incomplete character, and an invalid byte not at the end. -/
theorem limitedBuffer_str_spec_witness :
    ({ buffer := [97], limit := 4, truncated := false }
        : LimitedBuffer).toStr = .ok [97] ∧
      (∃ cps, utf8Decode (List.take 1 [97, 226, 130]) = .ok cps ∧
        ({ buffer := [97, 226, 130], limit := 3, truncated := true }
          : LimitedBuffer).toStr = .ok cps) ∧
      ({ buffer := [255, 97], limit := 4, truncated := true }
        : LimitedBuffer).toStr = .error () := by
  refine ⟨(limitedBuffer_str_spec _).1 [97] rfl, ?_, ?_⟩
  · exact ((limitedBuffer_str_spec
      { buffer := [97, 226, 130], limit := 3, truncated := true }).2 1 3 rfl).1
      ⟨rfl, rfl⟩
  · exact ((limitedBuffer_str_spec
      { buffer := [255, 97], limit := 4, truncated := true }).2 0 1 rfl).2
      (by simp)

/-- Fresh-buffer corollary of `appendAll_invariant`. -/
theorem appendAll_init (L : Nat) (chunks : List (List Nat)) :
    (LimitedBuffer.init L).appendAll chunks =
      { buffer := chunks.flatten.take L, limit := L,
        truncated := decide (chunks.flatten.length > L) } := by
  have h := appendAll_invariant chunks L ([] : List Nat)
  have hinit : LimitedBuffer.init L =
      { buffer := List.take L ([] : List Nat), limit := L,
        truncated := decide (([] : List Nat).length > L) } := by
    simp [LimitedBuffer.init]
  rw [hinit, h]
  simp

/-! ## `ExecuteOperation._verify_output_limit` (`_pod/execute.py`)

Python source:

```
def _verify_output_limit(self, stdout, stderr) -> None:
    if stdout.truncated or stderr.truncated:
        raise OutputLimitExceededError(
            limit_str=limits.MAX_EXEC_OUTPUT_SIZE_STR,
            truncated_output=str(stdout) + str(stderr),
        )
```

The exec loop appends each received frame to two `LimitedBuffer`s of
capacity `MAX_EXEC_OUTPUT_SIZE` (an opaque constant imported from
`inspect_ai`; the code is parametric in it) and calls this check.
`.ok none` models a return without raising; `.ok (some p)` models the
`OutputLimitExceededError` raised with truncated output `p`; `.error ()`
models a `UnicodeDecodeError` escaping from `str()`. -/

def verifyOutputLimit (o e : LimitedBuffer) : Except Unit (Option (List Nat)) :=
  if o.truncated || e.truncated then
    match o.toStr, e.toStr with
    | .ok so, .ok se => .ok (some (so ++ se))
    | _, _ => .error ()
  else .ok none

/-- If both buffers' `__str__` succeed and either is truncated, the check
raises the output-limit error carrying their concatenation. -/
theorem verifyOutputLimit_raises (o e : LimitedBuffer) (so se : List Nat)
    (ho : o.toStr = .ok so) (he : e.toStr = .ok se)
    (h : (o.truncated || e.truncated) = true) :
    verifyOutputLimit o e = .ok (some (so ++ se)) := by
  simp [verifyOutputLimit, h, ho, he]

/-- C4, counterexample (shown at capacity 4; the code reads the capacity
opaquely, so the claimed property would have to hold for every capacity).
The stdout stream is five `a` bytes, exceeding the limit; the stderr stream
is one `b` byte.  The output-limit error is raised, but the truncated
output it carries is `"aaaa" + "b"` — the concatenation of *both* decoded
buffers — and not exactly the 4-byte prefix `"aaaa"` of the offending
stdout stream. -/
theorem verifyOutputLimit_claim_counterexample :
    verifyOutputLimit
        ((LimitedBuffer.init 4).appendAll [[97, 97, 97, 97, 97]])
        ((LimitedBuffer.init 4).appendAll [[98]]) =
      .ok (some [97, 97, 97, 97, 98]) ∧
    [97, 97, 97, 97, 98] ≠ List.take 4 [97, 97, 97, 97, 97] := by
  exact ⟨rfl, by decide⟩

/-- C4, amended: whenever a command's stdout or stderr stream exceeds the
output capacity `M` (`MAX_EXEC_OUTPUT_SIZE`), the output-limit check raises
the output-limit-exceeded error, and the truncated output carried by that
error is the decoded first `min M N` bytes of the stdout stream followed by
the decoded first `min M N` bytes of the stderr stream — both streams'
prefixes, not only the offending stream's. -/
theorem verifyOutputLimit_spec (M : Nat) (fo fe : List (List Nat))
    (hover : M < fo.flatten.length ∨ M < fe.flatten.length)
    (so se : List Nat)
    (hso : utf8Decode (fo.flatten.take M) = .ok so)
    (hse : utf8Decode (fe.flatten.take M) = .ok se) :
    verifyOutputLimit ((LimitedBuffer.init M).appendAll fo)
        ((LimitedBuffer.init M).appendAll fe) =
      .ok (some (so ++ se)) := by
  rw [appendAll_init, appendAll_init]
  have hos : LimitedBuffer.toStr
      { buffer := fo.flatten.take M, limit := M,
        truncated := decide (fo.flatten.length > M) } = .ok so :=
    toStr_of_decode_ok _ so hso
  have hes : LimitedBuffer.toStr
      { buffer := fe.flatten.take M, limit := M,
        truncated := decide (fe.flatten.length > M) } = .ok se :=
    toStr_of_decode_ok _ se hse
  refine verifyOutputLimit_raises _ _ so se hos hes ?_
  rcases hover with h | h
  · rw [Bool.or_eq_true]
    exact Or.inl (decide_eq_true h)
  · rw [Bool.or_eq_true]
    exact Or.inr (decide_eq_true h)

/-- Witness for `verifyOutputLimit_spec` at capacity 1 with streams
`"ab"` (stdout, overflowing) and `"b"` (stderr). -/
theorem verifyOutputLimit_spec_witness :
    verifyOutputLimit ((LimitedBuffer.init 1).appendAll [[97, 98]])
        ((LimitedBuffer.init 1).appendAll [[98]]) = .ok (some [97, 98]) :=
  verifyOutputLimit_spec 1 [[97, 98]] [[98]] (by simp) [97] [98] rfl rfl

/-! ## Sentinel filtering (`ExecuteOperation._filter_sentinel_and_returncode`)

Python source:

```
COMPLETED_SENTINEL = "completed-sentinel-value"        # (note: the code
COMPLETED_SENTINEL_PATTERN = re.compile(rf"<{COMPLETED_SENTINEL}-(\d+)>")

def _filter_sentinel_and_returncode(self, frame):
    decoded = frame.decode("utf-8", errors="strict")
    split_frame = re.split(COMPLETED_SENTINEL_PATTERN, decoded)
    if len(split_frame) == 1:
        return frame, None
    filtered = split_frame[0] + split_frame[2]
    return filtered.encode("utf-8"), int(split_frame[1])
```

The claim is about frames that are valid UTF-8, on which
`decode`/`encode` are mutually inverse, so the embedding works on the
decoded text as a `List Char`.  The regex `<completed-sentinel-value-(\d+)>`
is a literal prefix, a nonempty greedy digit run, and a literal `>`;
since a digit run followed by `>` admits no backtracking, `re.split`
deterministically splits around the leftmost such match. -/

/-- The literal part of `COMPLETED_SENTINEL_PATTERN` before the digits:
`<completed-sentinel-value-`. -/
def sentinelLit : List Char := "<completed-sentinel-value-".toList

/-- The literal part of the pattern as the *specification* spells it
(`<completed-sentinel-(\\d+)>`), i.e. without `-value`. -/
def specSentinelLit : List Char := "<completed-sentinel-".toList

/-- Strip `p` from the front of `s`; `none` if `s` does not start with `p`. -/
def stripLit : List Char → List Char → Option (List Char)
  | [], s => some s
  | _ :: _, [] => none
  | p :: ps, c :: cs => if c = p then stripLit ps cs else none

/-- Split `s` into its maximal leading digit run and the remainder
(the greedy `(\\d+)` match). -/
def digitSpan : List Char → List Char × List Char
  | [] => ([], [])
  | c :: cs =>
    if c.isDigit then
      ((digitSpan cs).1.cons c, (digitSpan cs).2)
    else ([], c :: cs)

/-- Try to match `pre` + nonempty digit run + `>` at the start of `s`;
on success return the captured digits and the remainder after `>`. -/
def matchTokenAt (pre : List Char) (s : List Char) :
    Option (List Char × List Char) :=
  match stripLit pre s with
  | none => none
  | some afterLit =>
    match digitSpan afterLit with
    | ([], _) => none
    | (d, r) =>
      match r with
      | '>' :: rest => some (d, rest)
      | _ => none

/-- Leftmost match of `pre` + digits + `>` in `s`:
`some (before, digits, after)`, or `none` when no substring matches. -/
def findToken (pre : List Char) : List Char → Option (List Char × List Char × List Char)
  | [] => none
  | c :: cs =>
    match matchTokenAt pre (c :: cs) with
    | some (d, rest) => some ([], d, rest)
    | none =>
      match findToken pre cs with
      | some (a, d, b) => some (c :: a, d, b)
      | none => none

/-- Matching the code's `COMPLETED_SENTINEL_PATTERN` at the start of `s`. -/
def matchSentinelAt (s : List Char) : Option (List Char × List Char) :=
  matchTokenAt sentinelLit s

/-- Leftmost match of the code's sentinel pattern. -/
def findSentinel (s : List Char) : Option (List Char × List Char × List Char) :=
  findToken sentinelLit s

/-- Python `int()` on a digit string. -/
def parseDigits (d : List Char) : Nat :=
  d.foldl (fun n c => n * 10 + (c.toNat - 48)) 0

/-- Model of `_filter_sentinel_and_returncode` on the decoded frame. -/
def filterSentinel (frame : List Char) : List Char × Option Nat :=
  match findSentinel frame with
  | none => (frame, none)
  | some (a, d, b) => (a ++ b, some (parseDigits d))

/-- The full text matched by the sentinel pattern with digit run `d`. -/
def sentinelToken (d : List Char) : List Char := sentinelLit ++ d ++ ['>']

theorem stripLit_append (p s : List Char) : stripLit p (p ++ s) = some s := by
  induction p with
  | nil => rfl
  | cons c cs ih => simp [stripLit, ih]

theorem stripLit_sound :
    ∀ (p s r : List Char), stripLit p s = some r → s = p ++ r := by
  intro p
  induction p with
  | nil =>
    intro s r h
    simp [stripLit] at h
    simp [h]
  | cons c cs ih =>
    intro s r h
    cases s with
    | nil => simp [stripLit] at h
    | cons x xs =>
      by_cases hx : x = c
      · subst hx
        simp [stripLit] at h
        simpa using ih xs r h
      · simp [stripLit, hx] at h

theorem digitSpan_append (d t : List Char) (hdig : ∀ c ∈ d, c.isDigit = true) :
    digitSpan (d ++ '>' :: t) = (d, '>' :: t) := by
  induction d with
  | nil => simp [digitSpan]
  | cons c cs ih =>
    have hc : c.isDigit = true := hdig c (by simp)
    have hcs : ∀ x ∈ cs, x.isDigit = true := fun x hx => hdig x (by simp [hx])
    simp [digitSpan, hc, ih hcs]

theorem digitSpan_sound :
    ∀ (s d r : List Char), digitSpan s = (d, r) →
      s = d ++ r ∧ ∀ c ∈ d, c.isDigit = true := by
  intro s
  induction s with
  | nil =>
    intro d r h
    simp [digitSpan] at h
    obtain ⟨rfl, rfl⟩ := h
    simp
  | cons c cs ih =>
    intro d r h
    by_cases hc : c.isDigit = true
    · simp [digitSpan, hc] at h
      obtain ⟨hd, hr⟩ := h
      obtain ⟨hs, hdig⟩ := ih (digitSpan cs).1 (digitSpan cs).2 rfl
      subst hd hr
      constructor
      · simp [← hs]
      · intro x hx
        rcases List.mem_cons.mp hx with rfl | hx2
        · exact hc
        · exact hdig x hx2
    · simp [digitSpan, hc] at h
      obtain ⟨rfl, rfl⟩ := h
      simp

theorem matchTokenAt_complete (pre d t : List Char) (hd : d ≠ [])
    (hdig : ∀ c ∈ d, c.isDigit = true) :
    matchTokenAt pre (pre ++ d ++ '>' :: t) = some (d, t) := by
  have h1 : stripLit pre (pre ++ (d ++ '>' :: t)) = some (d ++ '>' :: t) :=
    stripLit_append pre (d ++ '>' :: t)
  have h2 : digitSpan (d ++ '>' :: t) = (d, '>' :: t) := digitSpan_append d t hdig
  rw [matchTokenAt, List.append_assoc, h1]
  dsimp only
  rw [h2]
  cases d with
  | nil => exact absurd rfl hd
  | cons c cs => rfl

theorem matchTokenAt_sound (pre s d rest : List Char)
    (h : matchTokenAt pre s = some (d, rest)) :
    s = pre ++ d ++ '>' :: rest ∧ d ≠ [] ∧ ∀ c ∈ d, c.isDigit = true := by
  rw [matchTokenAt] at h
  cases hsp : stripLit pre s with
  | none => rw [hsp] at h; dsimp only at h; exact absurd h (by simp)
  | some afterLit =>
    rw [hsp] at h
    dsimp only at h
    have hs : s = pre ++ afterLit := stripLit_sound pre s afterLit hsp
    cases hds : digitSpan afterLit with
    | mk d0 r0 =>
      rw [hds] at h
      obtain ⟨hsplit, hdig⟩ := digitSpan_sound afterLit d0 r0 hds
      cases d0 with
      | nil => dsimp only at h; exact absurd h (by simp)
      | cons c cs =>
        dsimp only at h
        cases r0 with
        | nil => exact absurd h (by simp)
        | cons rc rcs =>
          by_cases hrc : rc = '>'
          · subst hrc
            obtain ⟨rfl, rfl⟩ : c :: cs = d ∧ rcs = rest := by simpa using h
            refine ⟨?_, by simp, hdig⟩
            rw [hs, hsplit]
            simp
          · exfalso
            split at h
            · rename_i rest2 heq
              injection heq with h1 h2
              exact hrc h1
            · exact absurd h (by simp)

/-- If the token pattern does not match at the start of the nonempty text
`X`, then it still does not match at the start of `X ++ token ++ B`: a match
would either fit inside `X` (contradiction) or would have to contain the
token's opening `<` at a positive offset, which is impossible since after
its first character the matched text consists of the literal tail (which
contains no `<`), digits, and `>`. -/
theorem matchTokenAt_none_extend (preTail X d B : List Char) (hX : X ≠ [])
    (hlt : ('<' : Char) ∉ preTail)
    (hnone : matchTokenAt ('<' :: preTail) X = none)
    (hd : d ≠ []) (hdig : ∀ c ∈ d, c.isDigit = true) :
    matchTokenAt ('<' :: preTail)
      (X ++ (('<' :: preTail) ++ d ++ '>' :: B)) = none := by
  cases hm : matchTokenAt ('<' :: preTail)
      (X ++ (('<' :: preTail) ++ d ++ '>' :: B)) with
  | none => rfl
  | some pr =>
    exfalso
    obtain ⟨d2, rest2⟩ := pr
    obtain ⟨hS, hdd2, hdig2⟩ := matchTokenAt_sound _ _ _ _ hm
    have hS2 : X ++ (('<' :: preTail) ++ d ++ '>' :: B) =
        (('<' :: preTail) ++ d2 ++ ['>']) ++ rest2 := by
      rw [hS]; simp
    by_cases hlen : (('<' :: preTail) ++ d2 ++ ['>']).length ≤ X.length
    · -- the purported match fits inside X, so it would match at X itself
      have htake : X.take ((('<' :: preTail) ++ d2 ++ ['>']).length) =
          ('<' :: preTail) ++ d2 ++ ['>'] := by
        have h1 := congrArg
          (List.take ((('<' :: preTail) ++ d2 ++ ['>']).length)) hS2
        rw [List.take_append_of_le_length hlen, List.take_left] at h1
        exact h1
      have hXeq : X = (('<' :: preTail) ++ d2 ++ ['>']) ++
          X.drop ((('<' :: preTail) ++ d2 ++ ['>']).length) := by
        conv_lhs => rw [← List.take_append_drop
          ((('<' :: preTail) ++ d2 ++ ['>']).length) X]
        rw [htake]
      have hcomp := matchTokenAt_complete ('<' :: preTail) d2
        (X.drop ((('<' :: preTail) ++ d2 ++ ['>']).length)) hdd2 hdig2
      rw [hXeq, show (('<' :: preTail) ++ d2 ++ ['>']) ++
          X.drop ((('<' :: preTail) ++ d2 ++ ['>']).length) =
          ('<' :: preTail) ++ d2 ++ '>' ::
            X.drop ((('<' :: preTail) ++ d2 ++ ['>']).length) from by simp,
        hcomp] at hnone
      simp at hnone
    · -- the match reaches past X, so it contains the token's opening '<'
      push_neg at hlen
      have hXle : X.length ≤ (('<' :: preTail) ++ d2 ++ ['>']).length :=
        le_of_lt hlen
      obtain ⟨k, hk⟩ :
          ∃ k, (('<' :: preTail) ++ d2 ++ ['>']).length - X.length = k + 1 := by
        refine ⟨(('<' :: preTail) ++ d2 ++ ['>']).length - X.length - 1, ?_⟩
        omega
      have hM : ('<' :: preTail) ++ d2 ++ ['>'] =
          X ++ '<' :: ((preTail ++ d ++ '>' :: B).take k) := by
        have h1 := congrArg
          (List.take ((('<' :: preTail) ++ d2 ++ ['>']).length)) hS2
        rw [List.take_left, List.take_append_eq_append_take,
          List.take_of_length_le hXle,
          show (('<' :: preTail) ++ d ++ '>' :: B) =
            '<' :: (preTail ++ d ++ '>' :: B) from by simp,
          hk, List.take_succ_cons] at h1
        exact h1.symm
      cases X with
      | nil => exact hX rfl
      | cons x X2 =>
        rw [List.cons_append] at hM
        have htail : preTail ++ d2 ++ ['>'] =
            X2 ++ '<' :: ((preTail ++ d ++ '>' :: B).take k) := by
          have h2 := congrArg List.tail hM
          simpa using h2
        have hmem : ('<' : Char) ∈ preTail ++ d2 ++ ['>'] := by
          rw [htail]
          exact List.mem_append_right _ (List.mem_cons_self _ _)
        rcases List.mem_append.mp hmem with hmem2 | hmem3
        · rcases List.mem_append.mp hmem2 with h4 | h5
          · exact hlt h4
          · exact absurd (hdig2 '<' h5) (by decide)
        · exact absurd hmem3 (by decide)

/-- Unfolding of a failed `findToken` on a cons cell. -/
theorem findToken_none_cons (pre : List Char) (c : Char) (cs : List Char)
    (h : findToken pre (c :: cs) = none) :
    matchTokenAt pre (c :: cs) = none ∧ findToken pre cs = none := by
  rw [findToken] at h
  cases hm : matchTokenAt pre (c :: cs) with
  | some pr =>
    obtain ⟨d1, r1⟩ := pr
    rw [hm] at h
    dsimp only at h
    exact absurd h (by simp)
  | none =>
    rw [hm] at h
    dsimp only at h
    refine ⟨rfl, ?_⟩
    cases hf : findToken pre cs with
    | none => rfl
    | some pr =>
      obtain ⟨a1, d1, b1⟩ := pr
      rw [hf] at h
      dsimp only at h
      exact absurd h (by simp)

/-- The leftmost-match search on `A ++ token ++ B` finds exactly the
token when no substring of `A` matches. -/
theorem findToken_append (preTail : List Char) (hlt : ('<' : Char) ∉ preTail) :
    ∀ (A d B : List Char), findToken ('<' :: preTail) A = none → d ≠ [] →
      (∀ c ∈ d, c.isDigit = true) →
      findToken ('<' :: preTail) (A ++ (('<' :: preTail) ++ d ++ '>' :: B)) =
        some (A, d, B) := by
  intro A
  induction A with
  | nil =>
    intro d B _ hd hdig
    have hm : matchTokenAt ('<' :: preTail)
        ('<' :: (preTail ++ d ++ '>' :: B)) = some (d, B) := by
      have h0 := matchTokenAt_complete ('<' :: preTail) d B hd hdig
      simpa using h0
    rw [show ([] : List Char) ++ (('<' :: preTail) ++ d ++ '>' :: B) =
        '<' :: (preTail ++ d ++ '>' :: B) from by simp]
    rw [findToken, hm]
  | cons a A2 ih =>
    intro d B hnone hd hdig
    obtain ⟨hm0, hf0⟩ := findToken_none_cons _ _ _ hnone
    have hext := matchTokenAt_none_extend preTail (a :: A2) d B (by simp)
      hlt hm0 hd hdig
    rw [List.cons_append] at hext
    rw [List.cons_append, findToken, hext]
    dsimp only
    rw [ih d B hf0 hd hdig]

/-- C2, counterexample.  The specification spells the sentinel pattern as
`<completed-sentinel-(\\d+)>`, but the code's
`COMPLETED_SENTINEL_PATTERN` is `<completed-sentinel-value-(\\d+)>`
(`COMPLETED_SENTINEL = "completed-sentinel-value"`).  The frame
`<completed-sentinel-7>` decomposes as `A + S + B` with `A = B = ""` where
`S` matches the spec's sentinel pattern with digits `7`, yet the executor's
filter returns the frame unchanged with no return code instead of the
stripped frame with return code `7`. -/
theorem filterSentinel_claim_counterexample :
    findToken specSentinelLit "<completed-sentinel-7>".toList =
        some ([], ['7'], []) ∧
      filterSentinel "<completed-sentinel-7>".toList =
        ("<completed-sentinel-7>".toList, none) ∧
      ("<completed-sentinel-7>".toList, (none : Option Nat)) ≠
        (([] : List Char) ++ [], some 7) := by
  refine ⟨rfl, rfl, by decide⟩

/-- C2, amended: the sentinel pattern is
`<completed-sentinel-value-(\\d+)>` (the specification omits the `-value`
segment).  For every decoded stdout frame of the form `A + S + B`, where
`S` is the sentinel token carrying a nonempty digit run `D` and neither `A`
nor `B` contains a sentinel match, the filter returns `A + B` with return
code `int(D)`; and every frame containing no sentinel match is returned
unchanged with no return code. -/
theorem filterSentinel_spec :
    (∀ A D B : List Char, D ≠ [] → (∀ c ∈ D, c.isDigit = true) →
      findSentinel A = none → findSentinel B = none →
      filterSentinel (A ++ sentinelToken D ++ B) =
        (A ++ B, some (parseDigits D))) ∧
      (∀ frame : List Char, findSentinel frame = none →
        filterSentinel frame = (frame, none)) := by
  constructor
  · intro A D B hD hdig hA _hB
    have hpre : sentinelLit = '<' :: "completed-sentinel-value-".toList := rfl
    have hlt : ('<' : Char) ∉ "completed-sentinel-value-".toList := by decide
    have hfind := findToken_append "completed-sentinel-value-".toList hlt
      A D B (by rw [← hpre]; exact hA) hD hdig
    have harg : A ++ sentinelToken D ++ B =
        A ++ (('<' :: "completed-sentinel-value-".toList) ++ D ++ '>' :: B) := by
      rw [sentinelToken, hpre]
      simp
    rw [filterSentinel, findSentinel, harg, hpre, hfind]
  · intro frame hnone
    rw [filterSentinel, hnone]

/-- Witness for `filterSentinel_spec`: the frame
`ok<completed-sentinel-value-42>z` filters to `okz` with return code 42,
and the sentinel-free frame `hello` passes through unchanged. -/
theorem filterSentinel_spec_witness :
    filterSentinel ("ok".toList ++ sentinelToken "42".toList ++ "z".toList) =
        ("okz".toList, some 42) ∧
      filterSentinel "hello".toList = ("hello".toList, none) := by
  constructor
  · have h := filterSentinel_spec.1 "ok".toList "42".toList "z".toList
      (by decide) (by decide) rfl rfl
    rw [h]
    rfl
  · exact filterSentinel_spec.2 "hello".toList rfl

/-! ## Compose file recognition (`_compose/compose.py`,
`_sandbox_environment.py`)

Python source:

```
def is_docker_compose_file(file: Path) -> bool:
    return file.name.endswith("compose.yaml") or file.name.endswith("compose.yml")

def _create_values_source(release_config):
    if release_config.values and is_docker_compose_file(release_config.values):
        if release_config.chart is not None:
            raise ValueError(...)
        return ComposeValuesSource(release_config.values)
    return StaticValuesSource(release_config.values)
```
-/

/-- Model of `is_docker_compose_file`, on the file's base name. -/
def is_docker_compose_file (name : List Char) : Bool :=
  "compose.yaml".toList.isSuffixOf name || "compose.yml".toList.isSuffixOf name

/-- Which kind of `ValuesSource` a configured values file is wrapped in. -/
inductive SourceKind
  | compose
  | static
  deriving Repr, DecidableEq

/-- Model of `_create_values_source`: `.error ()` is the `ValueError` for a
compose file combined with a custom chart. -/
def _create_values_source (values : Option (List Char)) (chartGiven : Bool) :
    Except Unit (SourceKind × Option (List Char)) :=
  match values with
  | some v =>
    if is_docker_compose_file v then
      if chartGiven then .error ()
      else .ok (.compose, some v)
    else .ok (.static, some v)
  | none => .ok (.static, none)

/-- C9, counterexample.  The filename `foo-compose.yaml` is none of
`compose.yaml`, `compose.yml`, `docker-compose.yaml`, `docker-compose.yml`,
yet it is treated as a Docker Compose source: the code tests
`endswith("compose.yaml") or endswith("compose.yml")`, a strict superset of
the four listed names. -/
theorem compose_recognition_counterexample :
    is_docker_compose_file "foo-compose.yaml".toList = true ∧
      _create_values_source (some "foo-compose.yaml".toList) false =
        .ok (.compose, some "foo-compose.yaml".toList) ∧
      ("foo-compose.yaml".toList ∉
        ["compose.yaml".toList, "compose.yml".toList,
         "docker-compose.yaml".toList, "docker-compose.yml".toList]) := by
  refine ⟨rfl, rfl, by decide⟩

/-- C9, amended: a configured values file (with the default chart) is
treated as a Docker Compose source exactly when its filename *ends with*
`compose.yaml` or `compose.yml`; this includes the four listed names.
Any other filename yields a static values source. -/
theorem compose_recognition_spec :
    (∀ name : List Char,
      _create_values_source (some name) false = .ok (.compose, some name) ↔
        ("compose.yaml".toList <:+ name ∨ "compose.yml".toList <:+ name)) ∧
      (∀ name : List Char,
        ¬("compose.yaml".toList <:+ name ∨ "compose.yml".toList <:+ name) →
        _create_values_source (some name) false = .ok (.static, some name)) ∧
      is_docker_compose_file "compose.yaml".toList = true ∧
      is_docker_compose_file "compose.yml".toList = true ∧
      is_docker_compose_file "docker-compose.yaml".toList = true ∧
      is_docker_compose_file "docker-compose.yml".toList = true := by
  refine ⟨?_, ?_, rfl, rfl, rfl, rfl⟩
  · intro name
    by_cases h : is_docker_compose_file name = true
    · have h2 := h
      rw [is_docker_compose_file, Bool.or_eq_true,
        List.isSuffixOf_iff_suffix, List.isSuffixOf_iff_suffix] at h2
      constructor
      · intro _
        exact h2
      · intro _
        simp [_create_values_source, h]
    · have h2 : ¬("compose.yaml".toList <:+ name ∨ "compose.yml".toList <:+ name) := by
        rw [is_docker_compose_file, Bool.or_eq_true,
          List.isSuffixOf_iff_suffix, List.isSuffixOf_iff_suffix] at h
        exact h
      constructor
      · intro hcontra
        simp [_create_values_source, h] at hcontra
      · intro hor
        exact absurd hor h2
  · intro name h2
    have ha : "compose.yaml".toList.isSuffixOf name = false := by
      rw [← Bool.not_eq_true, List.isSuffixOf_iff_suffix]
      exact fun hc => h2 (Or.inl hc)
    have hb : "compose.yml".toList.isSuffixOf name = false := by
      rw [← Bool.not_eq_true, List.isSuffixOf_iff_suffix]
      exact fun hc => h2 (Or.inr hc)
    have h : is_docker_compose_file name = false := by
      rw [is_docker_compose_file, ha, hb]
      rfl
    simp [_create_values_source, h]

/-- Witness for `compose_recognition_spec` at the name `app-compose.yml`
(compose) and `values.yaml` (static). -/
theorem compose_recognition_spec_witness :
    _create_values_source (some "app-compose.yml".toList) false =
        .ok (.compose, some "app-compose.yml".toList) ∧
      _create_values_source (some "values.yaml".toList) false =
        .ok (.static, some "values.yaml".toList) := by
  constructor
  · exact (compose_recognition_spec.1 "app-compose.yml".toList).mpr
      (Or.inr (by decide))
  · exact compose_recognition_spec.2.1 "values.yaml".toList (by decide)

/-! ## `_run_subprocess` result construction (`_helm.py`)

Python source (tail of `_run_subprocess`):

```
return ExecResult(
    success=proc.returncode == 0,
    returncode=proc.returncode or 1,
    stdout=stdout.decode() if stdout else "",
    stderr=stderr.decode() if stderr else "",
)
```

After `communicate()` returns, `proc.returncode` is the integer OS exit
status (negative when killed by a signal).  `x or 1` yields `1` when `x`
is falsy, i.e. when `x == 0`. -/

/-- Model of the `(success, returncode)` pair built by `_run_subprocess`
from the subprocess exit status. -/
def runSubprocessResult (exitStatus : Int) : Bool × Int :=
  (exitStatus == 0, if exitStatus == 0 then 1 else exitStatus)

/-- C10: for every completed helm subprocess, `success` is true iff the OS
exit status is 0; `returncode` equals the exit status when it is nonzero
and equals 1 when the exit status is 0; hence the `returncode` of a
successful helm operation is never 0. -/
theorem runSubprocess_returncode_spec (exitStatus : Int) :
    ((runSubprocessResult exitStatus).1 = true ↔ exitStatus = 0) ∧
      (runSubprocessResult exitStatus).2 =
        (if exitStatus = 0 then 1 else exitStatus) ∧
      (runSubprocessResult exitStatus).2 ≠ 0 := by
  by_cases h : exitStatus = 0 <;> simp [runSubprocessResult, h]

/-! ## `Release.install` retry loop (`_helm.py`)

Python source:

```
attempt = 1
while True:
    try:
        await self._install(values, upgrade=attempt > 1)
        break
    except _ResourceQuotaModifiedError:
        if attempt >= MAX_INSTALL_ATTEMPTS:
            raise
        attempt += 1
        await asyncio.sleep(INSTALL_RETRY_DELAY_SECONDS)
```

`_raise_install_error` classifies a failed helm run: a stderr matching the
resource-quota regex raises `_ResourceQuotaModifiedError` (caught above);
any other failure raises a `RuntimeError` that propagates. -/

def MAX_INSTALL_ATTEMPTS : Nat := 3

def INSTALL_RETRY_DELAY_SECONDS : Nat := 5

/-- Classification of one `helm install` invocation, as produced by
`_install` / `_raise_install_error`. -/
inductive AttemptResult
  | success
  | quotaConflict
  | otherError
  deriving Repr, DecidableEq

/-- What `Release.install` ultimately raises, if anything. -/
inductive InstallError
  | quota
  | other
  | outOfFuel
  deriving Repr, DecidableEq

/-- Model of the retry loop.  `f n` classifies the `n`-th helm invocation.
Each trace entry `(upgrade, delayBefore)` records one attempt: whether it
used `upgrade --install`, and the seconds slept immediately before it.
`fuel` makes the recursion total; `installRun` supplies `MAX_INSTALL_ATTEMPTS`
fuel, which the `attempt >= MAX_INSTALL_ATTEMPTS` guard never exhausts. -/
def installGo (f : Nat → AttemptResult) :
    Nat → Nat → List (Bool × Nat) × Except InstallError Unit
  | _, 0 => ([], .error .outOfFuel)
  | attempt, fuel + 1 =>
    let upgrade := decide (attempt > 1)
    let delay := if attempt > 1 then INSTALL_RETRY_DELAY_SECONDS else 0
    match f attempt with
    | .success => ([(upgrade, delay)], .ok ())
    | .otherError => ([(upgrade, delay)], .error .other)
    | .quotaConflict =>
      if attempt ≥ MAX_INSTALL_ATTEMPTS then ([(upgrade, delay)], .error .quota)
      else
        (((installGo f (attempt + 1) fuel).1).cons (upgrade, delay),
          (installGo f (attempt + 1) fuel).2)

/-- Model of the loop in `Release.install` (starting at attempt 1). -/
def installRun (f : Nat → AttemptResult) :
    List (Bool × Nat) × Except InstallError Unit :=
  installGo f 1 MAX_INSTALL_ATTEMPTS

/-- The behaviour claim C5 describes, written from the specification's
words: at most 3 total attempts; the first invokes `install`, the second
and third invoke `upgrade --install`; a 5-second delay before each retry;
retry only on resource-quota-conflict; any other failure propagates
without retry; after the third consecutive conflict the error propagates. -/
def claimedInstallBehaviour (f : Nat → AttemptResult) :
    List (Bool × Nat) × Except InstallError Unit :=
  match f 1 with
  | .success => ([(false, 0)], .ok ())
  | .otherError => ([(false, 0)], .error .other)
  | .quotaConflict =>
    match f 2 with
    | .success => ([(false, 0), (true, 5)], .ok ())
    | .otherError => ([(false, 0), (true, 5)], .error .other)
    | .quotaConflict =>
      match f 3 with
      | .success => ([(false, 0), (true, 5), (true, 5)], .ok ())
      | .otherError => ([(false, 0), (true, 5), (true, 5)], .error .other)
      | .quotaConflict => ([(false, 0), (true, 5), (true, 5)], .error .quota)

/-- C5: the retry loop of `Release.install` behaves exactly as claimed,
for every possible sequence of per-attempt outcomes. -/
theorem release_install_retry_spec (f : Nat → AttemptResult) :
    installRun f = claimedInstallBehaviour f := by
  cases h1 : f 1 <;> cases h2 : f 2 <;> cases h3 : f 3 <;>
    simp [installRun, installGo, claimedInstallBehaviour, h1, h2, h3,
      MAX_INSTALL_ATTEMPTS, INSTALL_RETRY_DELAY_SECONDS]

/-! ## `HelmReleaseManager` (`_manager.py`)

Python source:

```
async def install(self, release):
    # Track the release regardless of the install result.
    self._installed_releases.append(release)
    await release.install()

async def uninstall(self, release, quiet):
    await release.uninstall(quiet)
    self._installed_releases.remove(release)

async def uninstall_all(self, print_only):
    if len(self._installed_releases) == 0:
        return
    if print_only:
        self._print_cleanup_instructions()
        return
    _print_do_not_interrupt()
    tasks = [release.uninstall(quiet=False) for release in self._installed_releases]
    self._installed_releases.clear()
    await asyncio.gather(*tasks, return_exceptions=True)
```

Releases are identified by opaque ids (`Nat`); Python object identity
equality (no `__eq__` override on `Release`) becomes id equality. -/

/-- Model of `HelmReleaseManager.install`: append, then await.  The first
component is the tracked list at the moment `release.install()` is awaited;
the second is the tracked list when `install` returns or raises (the await
outcome does not touch the list). -/
def managerInstall (tracked : List Nat) (release : Nat) :
    List Nat × List Nat :=
  (tracked ++ [release], tracked ++ [release])

/-- Model of `HelmReleaseManager.uninstall` with `helmOk` abstracting
whether `release.uninstall(quiet)` returns: `some newTracked` when the
method returns normally, `none` when it raises (a helm failure, or the
`ValueError` from `list.remove` when the release is untracked).
`List.erase` removes the first occurrence, as `list.remove` does. -/
def managerUninstall (tracked : List Nat) (release : Nat) (helmOk : Bool) :
    Option (List Nat) :=
  if helmOk then
    if release ∈ tracked then some (tracked.erase release) else none
  else none

/-- C1, counterexample.  Two `install(r)` calls for the same release leave
the tracked list `[r, r]`; a successful `uninstall(r, quiet)` removes only
the first occurrence, so `r` is still present after it returns. -/
theorem manager_tracking_counterexample :
    (managerInstall (managerInstall [] 5).2 5).2 = [5, 5] ∧
      managerUninstall [5, 5] 5 true = some [5] ∧ (5 : Nat) ∈ [5] := by
  refine ⟨rfl, rfl, by decide⟩

/-- C1, amended: for every install attempt the release is in the tracked
list both at the moment the Helm install is awaited and when `install`
raises or returns; a successful `uninstall` removes exactly one tracked
occurrence of the release, so whenever the release was tracked exactly once
(the normal case) it is absent afterwards. -/
theorem manager_tracking_spec (tracked : List Nat) (release : Nat) :
    (release ∈ (managerInstall tracked release).1 ∧
      release ∈ (managerInstall tracked release).2) ∧
      (∀ tracked2, managerUninstall tracked release true = some tracked2 →
        tracked2.count release = tracked.count release - 1 ∧
        (tracked.count release = 1 → release ∉ tracked2)) := by
  refine ⟨⟨by simp [managerInstall], by simp [managerInstall]⟩, ?_⟩
  intro tracked2 h
  by_cases hm : release ∈ tracked
  · rw [managerUninstall, if_pos rfl, if_pos hm] at h
    obtain rfl : tracked.erase release = tracked2 := Option.some.inj h
    refine ⟨List.count_erase_self release tracked, ?_⟩
    intro hone
    have : (tracked.erase release).count release = 0 := by
      rw [List.count_erase_self, hone]
    exact List.count_eq_zero.mp this
  · rw [managerUninstall, if_pos rfl, if_neg hm] at h
    exact absurd h (by simp)

/-- Witness for `manager_tracking_spec` at the singleton state `[7]`. -/
theorem manager_tracking_spec_witness :
    (7 : Nat) ∈ (managerInstall [] 7).1 ∧
      ([] : List Nat).count 7 = ([7] : List Nat).count 7 - 1 ∧
      (7 : Nat) ∉ ([] : List Nat) := by
  refine ⟨(manager_tracking_spec [] 7).1.1, ?_, ?_⟩
  · exact ((manager_tracking_spec [7] 7).2 [] rfl).1
  · exact ((manager_tracking_spec [7] 7).2 [] rfl).2 (by decide)

/-- Observable outcome of one `uninstall_all` call. -/
structure UninstallAllResult where
  stateAtAwait : List Nat
  finalState : List Nat
  attempted : List Nat
  raised : Bool
  deriving Repr, DecidableEq

/-- Model of `HelmReleaseManager.uninstall_all`.  `fails r` abstracts
whether `release.uninstall(quiet=False)` raises for release `r`; because
the coroutines are gathered with `return_exceptions=True`, their failures
are returned as values and never propagate, so `raised` is `false` on
every path.  `stateAtAwait` is the tracked list at the moment the gather
is awaited (the list is cleared beforehand). -/
def uninstallAll (tracked : List Nat) (printOnly : Bool)
    (fails : Nat → Bool) : UninstallAllResult :=
  if tracked.length = 0 then
    { stateAtAwait := tracked, finalState := tracked, attempted := [],
      raised := false }
  else if printOnly then
    { stateAtAwait := tracked, finalState := tracked, attempted := [],
      raised := false }
  else
    { stateAtAwait := [], finalState := [], attempted := tracked,
      raised := false }

/-- C7: `uninstall_all(print_only=true)` leaves the tracked list unchanged;
`uninstall_all(print_only=false)` clears the tracked list before awaiting
any uninstall, attempts every previously tracked release, and suppresses
every individual uninstall failure — whatever the failure pattern. -/
theorem uninstall_all_spec (tracked : List Nat) (fails : Nat → Bool) :
    ((uninstallAll tracked true fails).finalState = tracked ∧
      (uninstallAll tracked true fails).raised = false) ∧
      ((uninstallAll tracked false fails).stateAtAwait = [] ∧
        (uninstallAll tracked false fails).finalState = [] ∧
        (uninstallAll tracked false fails).attempted = tracked ∧
        (uninstallAll tracked false fails).raised = false) := by
  by_cases h : tracked.length = 0
  · have h0 : tracked = [] := List.length_eq_zero.mp h
    subst h0
    simp [uninstallAll]
  · simp [uninstallAll, h]

/-! ## `get_returncode` (`_pod/get_returncode.py`)

Python source:

```
channel_value = ws_client.read_channel(ERROR_CHANNEL)
if not channel_value:
    raise GetReturncodeError("... because it was empty.")
loaded = yaml.safe_load(channel_value)
if "status" not in loaded:
    raise GetReturncodeError("... did not contain a `status` key ...")
if loaded["status"] == "Success":
    return 0
for cause in loaded["details"]["causes"]:
    if cause.get("reason") == "ExitCode":
        return int(cause["message"])
if "error finding executable" in loaded["message"]:
    raise ExecutableNotFoundError(loaded["message"])
raise GetReturncodeError("... no entry ... with `reason`=='ExitCode' ...")
```

The status frame is modelled as a parsed YAML mapping (`none` for an empty
channel value); the k8s status payload is always a mapping when present. -/

/-- A YAML value loaded from the status channel. -/
inductive YV
  | s (v : String)
  | i (n : Int)
  | l (v : List YV)
  | d (v : List (String × YV))

/-- First-match key lookup in a YAML mapping (keys are unique). -/
def lookup : List (String × YV) → String → Option YV
  | [], _ => none
  | (k, v) :: rest, key => if k == key then some v else lookup rest key

/-- Outcome of `get_returncode`: a returned exit code, or the Python
exception class that escapes. -/
inductive PyOutcome
  | ok (n : Int)
  | getReturncodeError
  | executableNotFound
  | keyError
  | typeError
  | valueError
  | attributeError
  deriving Repr, DecidableEq

/-- Python `loaded["status"] == "Success"`. -/
def isSuccessStatus : YV → Bool
  | .s v => v == "Success"
  | _ => false

/-- Python `cause.get("reason") == "ExitCode"`. -/
def isExitCodeReason : Option YV → Bool
  | some (.s v) => v == "ExitCode"
  | _ => false

/-- Python `int()` on a string: optional sign followed by digits
(whitespace/underscore tolerance omitted; irrelevant to the claims). -/
def parseIntStr (cs : List Char) : Option Int :=
  match cs with
  | '-' :: rest =>
    if rest ≠ [] ∧ rest.all Char.isDigit then some (-(Int.ofNat (parseDigits rest)))
    else none
  | _ =>
    if cs ≠ [] ∧ cs.all Char.isDigit then some (Int.ofNat (parseDigits cs))
    else none

/-- The `for cause in causes` scan: returns the first ExitCode cause's
parsed message, `.ok none` when no cause matches, or the escaping Python
error (`cause.get` on a non-dict raises `AttributeError`; a missing
`message` key raises `KeyError`; `int()` on an unparsable string raises
`ValueError` and on a list/dict raises `TypeError`). -/
def findExitCode : List YV → Except PyOutcome (Option Int)
  | [] => .ok none
  | .d c :: rest =>
    if isExitCodeReason (lookup c "reason") then
      match lookup c "message" with
      | none => .error .keyError
      | some (.s m) =>
        match parseIntStr m.toList with
        | some n => .ok (some n)
        | none => .error .valueError
      | some (.i n) => .ok (some n)
      | some _ => .error .typeError
    else findExitCode rest
  | _ :: _ => .error .attributeError

/-- Python substring test `needle in hay` on strings. -/
def containsSub : List Char → List Char → Bool
  | needle, [] => needle.isEmpty
  | needle, c :: rest => needle.isPrefixOf (c :: rest) || containsSub needle rest

/-- Python `"error finding executable" in loaded["message"]` followed by
the final raise: substring test on a string; membership test on a list
(true iff some element equals the needle) or on a dict (keys); `TypeError`
on an int; `KeyError` when the key is missing. -/
def messageBranch (loaded : List (String × YV)) : PyOutcome :=
  match lookup loaded "message" with
  | none => .keyError
  | some (.s m) =>
    if containsSub "error finding executable".toList m.toList then
      .executableNotFound
    else .getReturncodeError
  | some (.i _) => .typeError
  | some (.l xs) =>
    if xs.any (fun x =>
        match x with
        | .s v => v == "error finding executable"
        | _ => false) then
      .executableNotFound
    else .getReturncodeError
  | some (.d entries) =>
    if entries.any (fun kv => kv.1 == "error finding executable") then
      .executableNotFound
    else .getReturncodeError

/-- Model of `get_returncode`.  `none` models an empty channel value.
Iterating a nonempty string or dict where `causes` is expected raises
`AttributeError` at `cause.get`; an empty one iterates nothing and falls
through to the message check; indexing a non-mapping with `["causes"]`
raises `TypeError`. -/
def get_returncode (channel : Option (List (String × YV))) : PyOutcome :=
  match channel with
  | none => .getReturncodeError
  | some loaded =>
    match lookup loaded "status" with
    | none => .getReturncodeError
    | some st =>
      if isSuccessStatus st then .ok 0
      else
        match lookup loaded "details" with
        | none => .keyError
        | some (.d dd) =>
          match lookup dd "causes" with
          | none => .keyError
          | some (.l causes) =>
            (match findExitCode causes with
            | .error err => err
            | .ok (some n) => .ok n
            | .ok none => messageBranch loaded)
          | some (.s cs) =>
            if cs == "" then messageBranch loaded else .attributeError
          | some (.d dd2) =>
            if dd2.isEmpty then messageBranch loaded else .attributeError
          | some (.i _) => .typeError
        | some _ => .typeError

/-- Claim-side scan of `details.causes`, written from the specification's
words: the first entry whose `reason` is `ExitCode` yields its `message`
parsed as an integer. -/
def claimScan : List YV → Option Int
  | [] => none
  | .d c :: rest =>
    if isExitCodeReason (lookup c "reason") then
      match lookup c "message" with
      | some (.s m) => parseIntStr m.toList
      | some (.i n) => some n
      | _ => none
    else claimScan rest
  | _ :: rest => claimScan rest

/-- Claim-side behaviour of return-code extraction, written from the
specification's words: `Success` yields 0; else the first `ExitCode` cause's
message; else *executable-not-found* when the message contains
`error finding executable`; else *returncode-unavailable* in every other
case, including empty or malformed frames. -/
def claimedReturncode (channel : Option (List (String × YV))) : PyOutcome :=
  match channel with
  | none => .getReturncodeError
  | some loaded =>
    match lookup loaded "status" with
    | none => .getReturncodeError
    | some st =>
      if isSuccessStatus st then .ok 0
      else
        match (match lookup loaded "details" with
              | some (.d dd) =>
                match lookup dd "causes" with
                | some (.l causes) => claimScan causes
                | _ => none
              | _ => none) with
        | some n => .ok n
        | none =>
          if (match lookup loaded "message" with
              | some (.s m) =>
                containsSub "error finding executable".toList m.toList
              | _ => false) then
            .executableNotFound
          else .getReturncodeError

/-- Every cause entry is a mapping, and every `ExitCode` cause carries a
parsable `message`. -/
def causesOK : List YV → Bool
  | [] => true
  | .d c :: rest =>
    (if isExitCodeReason (lookup c "reason") then
      match lookup c "message" with
      | some (.s m) => (parseIntStr m.toList).isSome
      | some (.i _) => true
      | _ => false
    else true) && causesOK rest
  | _ :: _ => false

/-- A frame is well-formed when, on the failure path, it has the
`details.causes` structure the code dereferences unconditionally, and a
string `message` when no `ExitCode` cause decides the outcome. -/
def wellFormedFrame : Option (List (String × YV)) → Bool
  | none => true
  | some loaded =>
    match lookup loaded "status" with
    | none => true
    | some st =>
      if isSuccessStatus st then true
      else
        match lookup loaded "details" with
        | some (.d dd) =>
          match lookup dd "causes" with
          | some (.l causes) =>
            causesOK causes &&
              (match claimScan causes with
              | some _ => true
              | none =>
                match lookup loaded "message" with
                | some (.s _) => true
                | _ => false)
          | _ => false
        | _ => false

/-- On well-formed cause lists the code's scan agrees with the claim-side
scan and raises nothing. -/
theorem findExitCode_eq_claimScan (causes : List YV)
    (h : causesOK causes = true) :
    findExitCode causes = .ok (claimScan causes) := by
  induction causes with
  | nil => rfl
  | cons v rest ih =>
    cases v with
    | d c =>
      simp only [causesOK, Bool.and_eq_true] at h
      obtain ⟨h1, h2⟩ := h
      by_cases hr : isExitCodeReason (lookup c "reason") = true
      · rw [if_pos hr] at h1
        simp only [findExitCode, claimScan]
        rw [if_pos hr, if_pos hr]
        cases hmv : lookup c "message" with
        | none => rw [hmv] at h1; simp at h1
        | some mv =>
          cases mv with
          | s m =>
            rw [hmv] at h1
            dsimp only at h1
            cases hp : parseIntStr m.toList with
            | some n => dsimp only; rw [hp]
            | none => rw [hp] at h1; simp at h1
          | i n => rfl
          | l xs => rw [hmv] at h1; simp at h1
          | d dd => rw [hmv] at h1; simp at h1
      · have hr2 : isExitCodeReason (lookup c "reason") = false :=
          Bool.eq_false_iff.mpr hr
        simp only [findExitCode, claimScan]
        rw [if_neg hr, if_neg hr]
        exact ih h2
    | s v => simp [causesOK] at h
    | i n => simp [causesOK] at h
    | l xs => simp [causesOK] at h

/-- C6, counterexample.  The frame `{"status": "Failure"}` has a `status`
field that is not `"Success"`, no `details`, and no `message`: the claim
says this malformed frame raises the returncode-unavailable error, but the
code dereferences `loaded["details"]` unconditionally and a `KeyError`
escapes instead. -/
theorem get_returncode_claim_counterexample :
    get_returncode (some [("status", YV.s "Failure")]) = .keyError ∧
      PyOutcome.keyError ≠ PyOutcome.getReturncodeError := by
  refine ⟨by decide, by decide⟩

/-- C6, amended: the claimed behaviour (Success yields 0; else the first
`ExitCode` cause's message parsed as an integer; else
*executable-not-found* on the `error finding executable` message; else
*returncode-unavailable*, also for an empty channel or a frame whose
`status` key is missing) holds for every frame that is well-formed on the
failure path — i.e. has the `details.causes` structure the code
dereferences and a string `message` when no cause applies; on frames
lacking that structure a `KeyError`/`TypeError`/`AttributeError` escapes
instead of returncode-unavailable. -/
theorem get_returncode_spec (channel : Option (List (String × YV)))
    (hwf : wellFormedFrame channel = true) :
    get_returncode channel = claimedReturncode channel := by
  cases channel with
  | none => rfl
  | some loaded =>
    cases hst : lookup loaded "status" with
    | none => simp [get_returncode, claimedReturncode, hst]
    | some st =>
      by_cases hs : isSuccessStatus st = true
      · simp [get_returncode, claimedReturncode, hst, hs]
      · rw [wellFormedFrame] at hwf
        rw [hst] at hwf
        dsimp only at hwf
        rw [if_neg hs] at hwf
        cases hd : lookup loaded "details" with
        | none => rw [hd] at hwf; simp at hwf
        | some dv =>
          cases dv with
          | d dd =>
            rw [hd] at hwf
            dsimp only at hwf
            cases hc : lookup dd "causes" with
            | none => rw [hc] at hwf; simp at hwf
            | some cv =>
              cases cv with
              | l causes =>
                rw [hc] at hwf
                dsimp only at hwf
                rw [Bool.and_eq_true] at hwf
                obtain ⟨hok, hrest⟩ := hwf
                have hfe := findExitCode_eq_claimScan causes hok
                cases hcs : claimScan causes with
                | some n =>
                  simp [get_returncode, claimedReturncode, hst, hs, hd, hc,
                    hfe, hcs]
                | none =>
                  rw [hcs] at hrest
                  dsimp only at hrest
                  cases hm : lookup loaded "message" with
                  | none => rw [hm] at hrest; simp at hrest
                  | some mv =>
                    cases mv with
                    | s m =>
                      simp [get_returncode, claimedReturncode, hst, hs, hd,
                        hc, hfe, hcs, hm, messageBranch]
                    | i n => rw [hm] at hrest; simp at hrest
                    | l xs => rw [hm] at hrest; simp at hrest
                    | d e2 => rw [hm] at hrest; simp at hrest
              | s cs => rw [hc] at hwf; simp at hwf
              | i n => rw [hc] at hwf; simp at hwf
              | d dd2 => rw [hc] at hwf; simp at hwf
          | s v => rw [hd] at hwf; simp at hwf
          | i n => rw [hd] at hwf; simp at hwf
          | l xs => rw [hd] at hwf; simp at hwf

/-- Witness for `get_returncode_spec` on three well-formed frames: a
Success frame, a failure frame with an `ExitCode` cause, and a failure
frame whose message names a missing executable. -/
theorem get_returncode_spec_witness :
    get_returncode (some [("status", YV.s "Success")]) = .ok 0 ∧
      get_returncode (some [("status", YV.s "Failure"),
        ("details", YV.d [("causes", YV.l [YV.d [("reason", YV.s "ExitCode"),
          ("message", YV.s "3")]])])]) = .ok 3 ∧
      get_returncode (some [("status", YV.s "Failure"),
        ("details", YV.d [("causes", YV.l [])]),
        ("message", YV.s "xx error finding executable yy")]) =
        .executableNotFound := by
  refine ⟨?_, ?_, ?_⟩
  · rw [get_returncode_spec (some [("status", YV.s "Success")]) (by decide)]
    decide
  · rw [get_returncode_spec (some [("status", YV.s "Failure"),
      ("details", YV.d [("causes", YV.l [YV.d [("reason", YV.s "ExitCode"),
        ("message", YV.s "3")]])])]) (by decide)]
    decide
  · rw [get_returncode_spec (some [("status", YV.s "Failure"),
      ("details", YV.d [("causes", YV.l [])]),
      ("message", YV.s "xx error finding executable yy")]) (by decide)]
    decide

end K8sSandbox
